import Mathlib

/-!
Shallow embedding of the sqsh media-compression CLI
(saviomartin/sqsh), covering the components the specification's
claims are about: the file classifier (`getFileInfo`), the output
path allocator (`generateOutputPath`), the size-safety result
computation (`CompressionService.calculateResult`), input-file
deletion (`deleteFile` and the end-of-encode finalization), the
batch orchestrator (`processFile` / the sequential loop in
`startCompression`), and the result aggregator (`BatchSummary`
statistics).

The filesystem is modelled as an explicit value (`Fs`): a list of
regular files with byte sizes plus a list of directories.  Node
path functions (`path.extname`, `path.basename`, `path.dirname`,
`path.join`) are modelled over plain strings with the posix
separator.  JavaScript numbers used for byte counts are modelled
as `Nat` (sizes from `fs.statSync` are non-negative integers) and
percentage / duration values as `ℚ`.
-/

namespace Sqsh

/-- Media category, from `types.ts` (`FileType`). -/
inductive FileType where
  | video
  | image
  | audio
deriving DecidableEq, Repr

/-- Input-file descriptor, from `types.ts` (`FileInfo`). -/
structure FileInfo where
  path : String
  name : String
  size : Nat
  type : FileType
  extension : String
deriving DecidableEq, Repr

/-- Advanced settings, from `types.ts` (`AdvancedSettings`); `none`
means "same as input" / "no target". -/
structure AdvancedSettings where
  outputFolder : Option String
  targetSize : Option Nat
  outputFormat : Option String
deriving DecidableEq, Repr

/-- Compression settings, from `types.ts` (`CompressionSettings`).
The optional boolean `removeInputFile` is modelled as a `Bool`
(absent and `false` behave identically in every use site). -/
structure CompressionSettings where
  removeInputFile : Bool
  advanced : Option AdvancedSettings
deriving DecidableEq, Repr

/-- Result record, from `types.ts` (`CompressionResult`).  The
optional booleans `inputFileRemoved` and `alreadyOptimized` are
modelled as `Bool` (the code only tests their truthiness, and an
absent field is falsy). -/
structure CompressionResult where
  inputPath : String
  outputPath : String
  inputSize : Nat
  outputSize : Nat
  savedBytes : Int
  savedPercentage : ℚ
  duration : ℚ
  inputFileRemoved : Bool
  alreadyOptimized : Bool
deriving DecidableEq, Repr

/-- Filesystem state: regular files (path and size) and
directories.  `fs.existsSync` is membership in either component;
`fs.statSync(p).isFile()` is membership in `files`. -/
structure Fs where
  files : List (String × Nat)
  dirs : List String
deriving DecidableEq, Repr

/-- Model of `fs.statSync(p).isFile()` (guarded by existence). -/
def Fs.isFile (fs : Fs) (p : String) : Bool :=
  fs.files.any (fun e => e.1 = p)

/-- Model of `fs.existsSync`. -/
def Fs.existsSync (fs : Fs) (p : String) : Bool :=
  fs.isFile p || fs.dirs.contains p

/-- Model of `fs.statSync(p).isDirectory()`. -/
def Fs.isDir (fs : Fs) (p : String) : Bool :=
  fs.dirs.contains p

/-- Size reported by `fs.statSync(p).size` for a regular file. -/
def Fs.fileSize (fs : Fs) (p : String) : Nat :=
  (((fs.files.find? (fun e => e.1 = p)).map Prod.snd)).getD 0

/-- Model of a successful `fs.unlinkSync`: the regular file is
removed. -/
def Fs.removeFile (fs : Fs) (p : String) : Fs :=
  { fs with files := fs.files.filter (fun e => ¬ (e.1 = p)) }

/-- All existing paths, as one list. -/
def Fs.paths (fs : Fs) : List String :=
  fs.files.map Prod.fst ++ fs.dirs

/-! ### String and path utilities (model of node:path, posix) -/

/-- Characters of the basename: everything after the last slash. -/
def afterLastSlash (l : List Char) : List Char :=
  (l.reverse.takeWhile (fun c => ¬ (c = '/'))).reverse

/-- Model of `path.basename(p)`. -/
def basenameFull (p : String) : String :=
  ⟨afterLastSlash p.data⟩

/-- Model of `path.dirname(p)`: everything before the last slash,
`"."` when there is no slash. -/
def dirname (p : String) : String :=
  let base := afterLastSlash p.data
  if base.length = p.data.length then "."
  else ⟨p.data.take (p.data.length - base.length - 1)⟩

/-- Extension characters of a basename: from the last dot on,
empty when there is no dot or the only dot starts the name
(node `path.extname` semantics). -/
def extOfBase (b : List Char) : List Char :=
  let after := (b.reverse.takeWhile (fun c => ¬ (c = '.'))).reverse
  if after.length = b.length then []
  else if b.length - after.length - 1 = 0 then []
  else '.' :: after

/-- Model of `path.extname(p)`. -/
def extname (p : String) : String :=
  ⟨extOfBase (afterLastSlash p.data)⟩

/-- Model of `path.basename(p, ext)`: the basename with the given
suffix removed when it is a proper suffix. -/
def basenameWithout (p : String) (ext : String) : String :=
  let b := afterLastSlash p.data
  if ext.data ≠ [] ∧ ext.data ≠ b ∧ ext.data.isSuffixOf b then
    ⟨b.take (b.length - ext.data.length)⟩
  else ⟨b⟩

/-- Model of `path.join(dir, name)` for a simple directory and
file name. -/
def pathJoin (dir name : String) : String :=
  dir ++ "/" ++ name

/-- Model of `String.prototype.toLowerCase` on ASCII data. -/
def lowerStr (s : String) : String :=
  ⟨s.data.map Char.toLower⟩

/-- The double-quote character. -/
def dquote : Char := '"'

/-- The single-quote character. -/
def squote : Char := Char.ofNat 39

/-- Strip one leading and one trailing quote character, the effect
of `replace(<leading-or-trailing-quote-regex>, '')`. -/
def stripQuotes (l : List Char) : List Char :=
  let l1 := match l with
    | c :: rest => if c = dquote ∨ c = squote then rest else l
    | [] => []
  match l1.getLast? with
  | some c => if c = dquote ∨ c = squote then l1.dropLast else l1
  | none => l1

/-- Whitespace for the purposes of `String.prototype.trim`. -/
def isSpaceChar (c : Char) : Bool :=
  c = ' ' ∨ c = Char.ofNat 9 ∨ c = Char.ofNat 10 ∨ c = Char.ofNat 13

/-- Model of `String.prototype.trim` on the character list. -/
def trimChars (l : List Char) : List Char :=
  ((l.dropWhile isSpaceChar).reverse.dropWhile isSpaceChar).reverse

/-- Model of the path cleanup used throughout the code:
`filePath.trim().replace(<leading-or-trailing-quote-regex>, '')`. -/
def cleanPath (s : String) : String :=
  ⟨stripQuotes (trimChars s.data)⟩

/-! ### Decimal rendering of the collision counter

The collision loop of `generateOutputPath` renders the counter
with a JS template literal; for a non-negative integer that is the
ordinary decimal numeral, modelled here explicitly. -/

/-- The ASCII digit for a value below ten. -/
def digitChar (d : Nat) : Char := Char.ofNat (48 + d)

/-- Decimal digits of a natural number, most significant first. -/
def natChars (n : Nat) : List Char :=
  if h : n < 10 then [digitChar n]
  else natChars (n / 10) ++ [digitChar (n % 10)]
decreasing_by
  exact Nat.div_lt_self (by omega) (by omega)

/-- Decimal numeral of a natural number, the JS rendering of the
counter. -/
def natStr (n : Nat) : String := ⟨natChars n⟩

/-- Value of a digit character. -/
def digitVal (c : Char) : Nat := c.toNat - 48

/-- Value of a most-significant-first digit list. -/
def digitsVal (l : List Char) : Nat :=
  l.foldl (fun a c => 10 * a + digitVal c) 0

/-! ### File classifier (`getFileInfo`, from `utils.ts`) -/

/-- Supported video extensions, from `utils.ts`. -/
def SUPPORTED_VIDEO_FORMATS : List String :=
  [".mp4", ".mov", ".avi", ".mkv", ".webm", ".flv", ".wmv", ".m4v"]

/-- Supported image extensions, from `utils.ts`. -/
def SUPPORTED_IMAGE_FORMATS : List String :=
  [".jpg", ".jpeg", ".png", ".gif", ".webp", ".bmp"]

/-- The if / else-if classification chain of `getFileInfo`: the
category assigned to a (lowercased, dot-bearing) extension. -/
def extCategory (ext : String) : Option FileType :=
  if SUPPORTED_VIDEO_FORMATS.contains ext then some .video
  else if SUPPORTED_IMAGE_FORMATS.contains ext then some .image
  else none

/-- Model of `getFileInfo` (`utils.ts`): clean the path, require an
existing regular file, classify purely by lowercased extension. -/
def getFileInfo (fs : Fs) (filePath : String) : Option FileInfo :=
  let cp := cleanPath filePath
  if fs.existsSync cp then
    if fs.isFile cp then
      let ext := lowerStr (extname cp)
      match extCategory ext with
      | some t =>
          some { path := cp, name := basenameFull cp, size := fs.fileSize cp,
                 type := t, extension := ⟨ext.data.drop 1⟩ }
      | none => none
    else none
  else none

/-- Model of `isValidDirectory` (`utils.ts`). -/
def isValidDirectory (fs : Fs) (dirPath : String) : Bool :=
  let cp := cleanPath dirPath
  fs.existsSync cp && fs.isDir cp

/-- Model of `deleteFile` (`utils.ts`): returns whether the file
was actually removed, plus the updated filesystem.  `unlinkSync`
on a directory throws, which the catch turns into `false`. -/
def deleteFile (fs : Fs) (filePath : String) : Bool × Fs :=
  if fs.existsSync filePath then
    if fs.isFile filePath then (true, fs.removeFile filePath)
    else (false, fs)
  else (false, fs)

/-! ### Output path allocator (`generateOutputPath`, from `utils.ts`) -/

/-- The destination directory: `advanced?.outputFolder ||
path.dirname(inputPath)`. -/
def allocDir (inputPath : String) (advanced : Option AdvancedSettings) : String :=
  (advanced.bind (fun a => a.outputFolder)).getD (dirname inputPath)

/-- The base output name: `<input-basename-without-ext>-sqshed`. -/
def allocBase (inputPath : String) : String :=
  basenameWithout inputPath (extname inputPath) ++ "-sqshed"

/-- The destination extension: `advanced?.outputFormat` with a dot,
else the input's own extension. -/
def allocExt (inputPath : String) (advanced : Option AdvancedSettings) : String :=
  match advanced.bind (fun a => a.outputFormat) with
  | some f => "." ++ f
  | none => extname inputPath

/-- The `k`-th candidate of the collision loop: the plain
`base ++ ext` name first, then numeric suffixes `-1`, `-2`, .... -/
def sqshCandidate (dir base ext : String) : Nat → String
  | 0 => pathJoin dir (base ++ ext)
  | k + 1 => pathJoin dir (base ++ "-" ++ natStr (k + 1) ++ ext)

/-- The `while (fs.existsSync(outputPath))` loop, with explicit
fuel; the caller passes more fuel than there are existing paths,
and `allocLoop_spec` shows the fuel is never exhausted. -/
def allocLoop (fs : Fs) (dir base ext : String) : Nat → Nat → String
  | k, 0 => sqshCandidate dir base ext k
  | k, fuel + 1 =>
    if fs.existsSync (sqshCandidate dir base ext k)
    then allocLoop fs dir base ext (k + 1) fuel
    else sqshCandidate dir base ext k

/-- Model of `generateOutputPath` (`utils.ts`). -/
def generateOutputPath (fs : Fs) (inputPath : String)
    (advanced : Option AdvancedSettings) : String :=
  allocLoop fs (allocDir inputPath advanced) (allocBase inputPath)
    (allocExt inputPath advanced) 0 (fs.paths.length + 1)

/-! ### Size-safety result computation
(`CompressionService.calculateResult`, from `services/compression.ts`) -/

/-- Model of `CompressionService.calculateResult`: probe the
written output's size; when it is not strictly smaller than the
input, delete the output (ignoring deletion errors) and reshape
the result into the already-optimized form. -/
def calculateResult (fs : Fs) (fileInfo : FileInfo) (outputPath : String)
    (duration : ℚ) : CompressionResult × Fs :=
  let outputSize := fs.fileSize outputPath
  let savedBytes : Int := (fileInfo.size : Int) - (outputSize : Int)
  let savedPercentage : ℚ := (savedBytes : ℚ) / (fileInfo.size : ℚ) * 100
  if outputSize ≥ fileInfo.size then
    ({ inputPath := fileInfo.path, outputPath := fileInfo.path,
       inputSize := fileInfo.size, outputSize := fileInfo.size,
       savedBytes := 0, savedPercentage := 0, duration := duration,
       inputFileRemoved := false, alreadyOptimized := true },
     fs.removeFile outputPath)
  else
    ({ inputPath := fileInfo.path, outputPath := outputPath,
       inputSize := fileInfo.size, outputSize := outputSize,
       savedBytes := savedBytes, savedPercentage := savedPercentage,
       duration := duration, inputFileRemoved := false,
       alreadyOptimized := false },
     fs)

/-- Model of the end-of-encode handler shared by `compressVideo`,
`compressImage` and `compressAudio`: compute the result, then, when
`removeInputFile` is set and the result is not already-optimized,
call `deleteFile` on the input and set `inputFileRemoved := true`
(the code ignores `deleteFile`'s return value). -/
def finalizeCompression (fs : Fs) (fileInfo : FileInfo)
    (settings : CompressionSettings) (outputPath : String)
    (duration : ℚ) : CompressionResult × Fs :=
  let rf := calculateResult fs fileInfo outputPath duration
  if settings.removeInputFile && !rf.1.alreadyOptimized then
    let df := deleteFile rf.2 fileInfo.path
    ({ rf.1 with inputFileRemoved := true }, df.2)
  else rf

/-- The three strategy branches of `CompressionService.compress`. -/
inductive CompressBranch where
  | video
  | audio
  | image
deriving DecidableEq, Repr

/-- Model of the dispatch in `CompressionService.compress`:
video to the video strategy, audio to the audio strategy,
everything else to the image strategy. -/
def compressDispatch : FileType → CompressBranch
  | .video => .video
  | .audio => .audio
  | .image => .image

/-! ### Batch orchestrator (`App.tsx`, batch version) -/

/-- Per-file lifecycle states of a batch record. -/
inductive FileStatus where
  | pending
  | compressing
  | completed
  | error
  | skipped
deriving DecidableEq, Repr

/-- One file's record in a batch (`BatchFileInfo` in `types.ts`,
as used by the orchestrator): descriptor, lifecycle status,
progress percentage, optional result and optional error message. -/
structure BatchFileInfo where
  info : FileInfo
  status : FileStatus
  progress : ℚ
  result : Option CompressionResult
  error : Option String
deriving DecidableEq, Repr

/-- Modelled from the spec: `toBatchFiles` (imported by the batch
orchestrator from `utils.ts`; its definition is not among the
sources).  Per the BatchFileRecord lifecycle and the transition
rules, every record is created `pending` with progress 0 and no
result or error. -/
def toBatchFiles (files : List FileInfo) : List BatchFileInfo :=
  files.map fun f =>
    { info := f, status := .pending, progress := 0, result := none, error := none }

/-- Modelled from the spec: `validateBatchFiles` (imported by the
file dropper from `utils.ts`; its definition is not among the
sources).  A batch must be category-homogeneous; mixing categories
yields a validation error message (`some`), a pure batch passes
(`none`). -/
def validateBatchFiles (files : List FileInfo) : Option String :=
  match files with
  | [] => none
  | f :: rest =>
    if rest.all (fun g => g.type == f.type) then none
    else some "Cannot mix file types in one batch"

/-- The Enter-key submission branch of the `FileDropper` component:
an empty drop list or a failed batch validation surfaces an error
and never hands records to the orchestrator; a valid list is turned
into pending batch records via `toBatchFiles`. -/
def submitDroppedFiles (files : List FileInfo) :
    Except String (List BatchFileInfo) :=
  if files.isEmpty then .error "Drop a file or folder first"
  else
    match validateBatchFiles files with
    | some e => .error e
    | none => .ok (toBatchFiles files)

/-- Model of the `updateFile` state updater in `App.tsx`: apply `f`
to the record at index `i`, leave every other record unchanged. -/
def updateFile : List BatchFileInfo → Nat → (BatchFileInfo → BatchFileInfo) →
    List BatchFileInfo
  | [], _, _ => []
  | r :: rs, 0, f => f r :: rs
  | r :: rs, n + 1, f => r :: updateFile rs n f

/-- Model of `processFile` in `App.tsx`: mark the record
`compressing` with progress 0, await the encoder, then either mark
it `completed` (progress 100, result populated) or catch the
rejection and mark it `error` (message populated, result left as it
was).  The catch never rethrows. -/
def processFile (records : List BatchFileInfo) (i : Nat)
    (outcome : Except String CompressionResult) : List BatchFileInfo :=
  match records[i]? with
  | none => records
  | some _ =>
    let rs := updateFile records i
      (fun r => { r with status := .compressing, progress := 0 })
    match outcome with
    | .ok result => updateFile rs i
        (fun r => { r with status := .completed, progress := 100,
                           result := some result })
    | .error msg => updateFile rs i
        (fun r => { r with status := .error, error := some msg })

/-- Observable scheduling events of one batch run: a file entering
`compressing`, a file reaching its terminal state, and the batch
completing (the step change to the summary screen). -/
inductive BatchEvent where
  | start (i : Nat)
  | done (i : Nat)
  | batchDone
deriving DecidableEq, Repr

/-- Model of the `for` loop in `startCompression` (`App.tsx`): files
are processed one at a time in index order, each awaited to its
terminal state before the next begins; after the loop the batch
moves to the summary step.  The returned trace records the order of
the transitions. -/
def runBatchAux (outcomes : List (Except String CompressionResult)) :
    List BatchFileInfo → Nat → Nat → List BatchFileInfo × List BatchEvent
  | records, _, 0 => (records, [.batchDone])
  | records, i, fuel + 1 =>
    let r1 := processFile records i
      (outcomes.getD i (.error "Compression failed"))
    let rest := runBatchAux outcomes r1 (i + 1) fuel
    (rest.1, .start i :: .done i :: rest.2)

/-- One whole batch run over the record list. -/
def runBatch (records : List BatchFileInfo)
    (outcomes : List (Except String CompressionResult)) :
    List BatchFileInfo × List BatchEvent :=
  runBatchAux outcomes records 0 records.length

/-- The canonical strictly-sequential trace: start and terminal
events for each index in order, then the batch-done event. -/
def seqTrace : Nat → Nat → List BatchEvent
  | _, 0 => [.batchDone]
  | i, fuel + 1 => .start i :: .done i :: seqTrace (i + 1) fuel

/-! ### Result aggregator (`BatchSummary`, from `components.tsx`) -/

/-- Records counted as compressed by the summary:
`completed` with a result that is not already-optimized. -/
def successFiles (files : List BatchFileInfo) : List BatchFileInfo :=
  files.filter fun f =>
    f.status == .completed &&
      (match f.result with
       | some r => !r.alreadyOptimized
       | none => false)

/-- Records counted as already optimal by the summary. -/
def skippedFiles (files : List BatchFileInfo) : List BatchFileInfo :=
  files.filter fun f =>
    f.status == .completed &&
      (match f.result with
       | some r => r.alreadyOptimized
       | none => false)

/-- Records counted as failed by the summary. -/
def errorFiles (files : List BatchFileInfo) : List BatchFileInfo :=
  files.filter fun f => f.status == .error

/-- `totalInputSize`: sum of every record's descriptor size. -/
def totalInputSize (files : List BatchFileInfo) : Nat :=
  files.foldl (fun sum f => sum + f.info.size) 0

/-- `totalOutputSize` as computed by `BatchSummary`: a record with
a non-optimized result contributes its output size, every other
record contributes its original size. -/
def totalOutputSize (files : List BatchFileInfo) : Nat :=
  files.foldl
    (fun sum f =>
      match f.result with
      | some r => if !r.alreadyOptimized then sum + r.outputSize else sum + f.info.size
      | none => sum + f.info.size)
    0

/-- `totalSaved` as computed by `BatchSummary`. -/
def totalSaved (files : List BatchFileInfo) : Int :=
  (totalInputSize files : Int) - (totalOutputSize files : Int)

/-- `savedPercentage` as computed by `BatchSummary`, with the
division-by-zero guard `totalInputSize > 0 ? ... : 0`. -/
def savedPercentage (files : List BatchFileInfo) : ℚ :=
  if 0 < totalInputSize files then
    (totalSaved files : ℚ) / (totalInputSize files : ℚ) * 100
  else 0

/-- The aggregation rule in the words of the specification: sum of
`result.outputSize` for completed records, of the descriptor size
otherwise (errored and unprocessed records counted as unchanged).
Stated for comparison against `totalOutputSize`. -/
def specTotalOutputBytes (files : List BatchFileInfo) : Nat :=
  files.foldl
    (fun sum f =>
      if f.status = .completed then
        sum + ((f.result.map (fun r => r.outputSize)).getD f.info.size)
      else sum + f.info.size)
    0

/-- Well-formedness of a record as produced by the orchestrator: a
result is present exactly on completed records, a present result
carries the record's own input size, and an already-optimized
result has unchanged output size. -/
def recordWF (f : BatchFileInfo) : Bool :=
  match f.result with
  | some r =>
      f.status == .completed && r.inputSize == f.info.size &&
        (!r.alreadyOptimized || r.outputSize == r.inputSize)
  | none => f.status != .completed

/-- The net effect of one `processFile` call on the record at its
own index: the compressing reset followed by the terminal update. -/
def applyOutcome (o : Except String CompressionResult)
    (r : BatchFileInfo) : BatchFileInfo :=
  match o with
  | .ok res => { r with status := .completed, progress := 100, result := some res }
  | .error msg => { r with status := .error, progress := 0, error := some msg }

/-- The part of the `k`-th candidate after `dir ++ "/" ++ base`. -/
def candMid (ext : String) : Nat → List Char
  | 0 => ext.data
  | k + 1 => '-' :: (natChars (k + 1) ++ ext.data)

/-- Model of the Enter-key branch of the output-folder step in the
`AdvancedSettingsEditor` (`components.tsx`): an empty input keeps
the default (same directory as the input file), a valid directory
is accepted as the override, anything else is rejected with the
`Invalid directory path` error and not stored. -/
def handleFolderEnter (fs : Fs) (folderInput : String) :
    Except String (Option String) :=
  let cp := cleanPath folderInput
  if cp = "" then .ok none
  else if isValidDirectory fs cp then .ok (some cp)
  else .error "Invalid directory path"

/-! ### Helper lemmas: filesystem -/

theorem Fs.isFile_iff_mem (fs : Fs) (p : String) :
    fs.isFile p = true ↔ p ∈ fs.files.map Prod.fst := by
  simp [Fs.isFile, List.any_eq_true, List.mem_map]

theorem Fs.existsSync_iff_mem_paths (fs : Fs) (p : String) :
    fs.existsSync p = true ↔ p ∈ fs.paths := by
  simp [Fs.existsSync, Fs.paths, Fs.isFile_iff_mem, List.mem_append]

theorem digitVal_digitChar (d : Nat) (h : d < 10) :
    digitVal (digitChar d) = d := by
  interval_cases d <;> rfl

theorem digitsVal_append_one (l : List Char) (c : Char) :
    digitsVal (l ++ [c]) = 10 * digitsVal l + digitVal c := by
  simp [digitsVal, List.foldl_concat]

theorem digitsVal_natChars (n : Nat) : digitsVal (natChars n) = n := by
  induction n using Nat.strong_induction_on with
  | _ n ih =>
    rw [natChars]
    by_cases h : n < 10
    · rw [dif_pos h]
      simp [digitsVal, digitVal_digitChar n h]
    · rw [dif_neg h]
      rw [digitsVal_append_one, ih (n / 10) (Nat.div_lt_self (by omega) (by omega)),
        digitVal_digitChar (n % 10) (Nat.mod_lt _ (by omega))]
      omega

theorem natChars_injective : Function.Injective natChars := by
  intro a b h
  have := digitsVal_natChars a
  rw [h, digitsVal_natChars] at this
  omega

theorem natChars_ne_nil (n : Nat) : natChars n ≠ [] := by
  rw [natChars]
  by_cases h : n < 10 <;> simp [h]


theorem Fs.isFile_removeFile_self (fs : Fs) (p : String) :
    (fs.removeFile p).isFile p = false := by
  simp [Fs.removeFile, Fs.isFile, List.any_eq_true, List.mem_filter]

theorem Fs.isFile_removeFile_ne (fs : Fs) (p q : String) (h : q ≠ p) :
    (fs.removeFile p).isFile q = fs.isFile q := by
  simp only [Fs.removeFile, Fs.isFile]
  induction fs.files with
  | nil => rfl
  | cons e rest ih =>
    simp only [List.filter_cons, List.any_cons]
    by_cases he : e.1 = p
    · rw [if_neg (by simp [he]), ih,
        decide_eq_false (fun hh => h (by rw [← hh, he])), Bool.false_or]
    · rw [if_pos (by simp [he]), List.any_cons, ih]

/-! ### Helper lemmas: size-safety result computation -/

theorem calculateResult_ge (fs : Fs) (fi : FileInfo) (outputPath : String)
    (duration : ℚ) (h : fi.size ≤ fs.fileSize outputPath) :
    calculateResult fs fi outputPath duration =
      ({ inputPath := fi.path, outputPath := fi.path, inputSize := fi.size,
         outputSize := fi.size, savedBytes := 0, savedPercentage := 0,
         duration := duration, inputFileRemoved := false,
         alreadyOptimized := true },
       fs.removeFile outputPath) := by
  simp [calculateResult, h]

theorem calculateResult_lt (fs : Fs) (fi : FileInfo) (outputPath : String)
    (duration : ℚ) (h : fs.fileSize outputPath < fi.size) :
    calculateResult fs fi outputPath duration =
      ({ inputPath := fi.path, outputPath := outputPath, inputSize := fi.size,
         outputSize := fs.fileSize outputPath,
         savedBytes := (fi.size : Int) - (fs.fileSize outputPath : Int),
         savedPercentage :=
           (((fi.size : Int) - (fs.fileSize outputPath : Int) : Int) : ℚ) /
             (fi.size : ℚ) * 100,
         duration := duration, inputFileRemoved := false,
         alreadyOptimized := false },
       fs) := by
  simp [calculateResult, Nat.not_le.mpr h, h.not_le]

theorem calculateResult_inputFileRemoved (fs : Fs) (fi : FileInfo)
    (outputPath : String) (duration : ℚ) :
    (calculateResult fs fi outputPath duration).1.inputFileRemoved = false := by
  by_cases h : fi.size ≤ fs.fileSize outputPath
  · simp [calculateResult_ge fs fi outputPath duration h]
  · simp [calculateResult_lt fs fi outputPath duration (Nat.not_le.mp h)]

theorem finalize_inputFileRemoved (fs : Fs) (fi : FileInfo)
    (settings : CompressionSettings) (outputPath : String) (duration : ℚ) :
    (finalizeCompression fs fi settings outputPath duration).1.inputFileRemoved =
      (settings.removeInputFile &&
        !(calculateResult fs fi outputPath duration).1.alreadyOptimized) := by
  unfold finalizeCompression
  by_cases h : (settings.removeInputFile &&
      !(calculateResult fs fi outputPath duration).1.alreadyOptimized) = true
  · simp [h]
  · simp only [h]
    simp only [Bool.not_eq_true] at h
    simp [h, calculateResult_inputFileRemoved]

theorem finalize_fs_no_delete (fs : Fs) (fi : FileInfo)
    (settings : CompressionSettings) (outputPath : String) (duration : ℚ)
    (h : (settings.removeInputFile &&
        !(calculateResult fs fi outputPath duration).1.alreadyOptimized) = false) :
    (finalizeCompression fs fi settings outputPath duration).2 =
      (calculateResult fs fi outputPath duration).2 := by
  unfold finalizeCompression
  simp [h]

theorem calculateResult_preserves_other_file (fs : Fs) (fi : FileInfo)
    (outputPath : String) (duration : ℚ) (q : String) (hq : q ≠ outputPath) :
    (calculateResult fs fi outputPath duration).2.isFile q = fs.isFile q := by
  by_cases h : fi.size ≤ fs.fileSize outputPath
  · simp [calculateResult_ge fs fi outputPath duration h,
      Fs.isFile_removeFile_ne fs outputPath q hq]
  · simp [calculateResult_lt fs fi outputPath duration (Nat.not_le.mp h)]

/-! ### Helper lemmas: file classifier -/

theorem getFileInfo_eq_none_iff (fs : Fs) (p : String) :
    getFileInfo fs p = none ↔
      (fs.existsSync (cleanPath p) = false ∨ fs.isFile (cleanPath p) = false ∨
        extCategory (lowerStr (extname (cleanPath p))) = none) := by
  unfold getFileInfo
  by_cases h1 : fs.existsSync (cleanPath p)
  · by_cases h2 : fs.isFile (cleanPath p)
    · cases h3 : extCategory (lowerStr (extname (cleanPath p))) <;>
        simp [h1, h2, h3]
    · simp [h1, h2]
  · simp [h1]

theorem getFileInfo_type (fs : Fs) (p : String) (fi : FileInfo)
    (h : getFileInfo fs p = some fi) :
    extCategory (lowerStr (extname (cleanPath p))) = some fi.type := by
  simp only [getFileInfo] at h
  by_cases h1 : fs.existsSync (cleanPath p)
  · by_cases h2 : fs.isFile (cleanPath p)
    · rw [if_pos h1, if_pos h2] at h
      cases h3 : extCategory (lowerStr (extname (cleanPath p))) with
      | none => rw [h3] at h; exact absurd h (by simp)
      | some t =>
        rw [h3] at h
        simp only [Option.some.injEq] at h
        rw [← h]
    · rw [if_pos h1, if_neg h2] at h
      exact absurd h (by simp)
  · rw [if_neg h1] at h
    exact absurd h (by simp)

theorem extCategory_ne_audio (e : String) (t : FileType)
    (h : extCategory e = some t) : t ≠ .audio := by
  unfold extCategory at h
  split at h
  · injection h with h
    rw [← h]
    decide
  · split at h
    · injection h with h
      rw [← h]
      decide
    · exact absurd h (by simp)

theorem supported_formats_disjoint :
    ∀ e ∈ SUPPORTED_VIDEO_FORMATS, ∀ e2 ∈ SUPPORTED_IMAGE_FORMATS, e ≠ e2 := by
  decide

theorem audio_ext_unsupported :
    ∀ e ∈ ([".mp3", ".wav", ".flac", ".ogg", ".aac", ".m4a"] : List String),
      extCategory e = none := by decide

/-! ### Helper lemmas: batch orchestrator -/

theorem updateFile_length (rs : List BatchFileInfo) (i : Nat)
    (f : BatchFileInfo → BatchFileInfo) :
    (updateFile rs i f).length = rs.length := by
  induction rs generalizing i with
  | nil => rfl
  | cons r rest ih =>
    cases i with
    | zero => rfl
    | succ n => simp [updateFile, ih]

theorem updateFile_get?_self (rs : List BatchFileInfo) (i : Nat)
    (f : BatchFileInfo → BatchFileInfo) :
    (updateFile rs i f)[i]? = rs[i]?.map f := by
  induction rs generalizing i with
  | nil => cases i <;> rfl
  | cons r rest ih =>
    cases i with
    | zero => simp [updateFile]
    | succ n => simpa [updateFile] using ih n

theorem updateFile_get?_ne (rs : List BatchFileInfo) (i j : Nat)
    (f : BatchFileInfo → BatchFileInfo) (h : j ≠ i) :
    (updateFile rs i f)[j]? = rs[j]? := by
  induction rs generalizing i j with
  | nil => cases i <;> rfl
  | cons r rest ih =>
    cases i with
    | zero =>
      cases j with
      | zero => exact absurd rfl h
      | succ m => simp [updateFile]
    | succ n =>
      cases j with
      | zero => simp [updateFile]
      | succ m => simpa [updateFile] using ih n m (fun hh => h (by rw [hh]))

theorem processFile_get?_self (records : List BatchFileInfo) (i : Nat)
    (o : Except String CompressionResult) :
    (processFile records i o)[i]? = records[i]?.map (applyOutcome o) := by
  unfold processFile
  cases hg : records[i]? with
  | none => simp [hg]
  | some r =>
    cases o with
    | ok res =>
      simp [updateFile_get?_self, hg, applyOutcome]
    | error msg =>
      simp [updateFile_get?_self, hg, applyOutcome]

theorem processFile_get?_ne (records : List BatchFileInfo) (i : Nat)
    (o : Except String CompressionResult) (j : Nat) (h : j ≠ i) :
    (processFile records i o)[j]? = records[j]? := by
  unfold processFile
  cases hg : records[i]? with
  | none => rfl
  | some r =>
    cases o with
    | ok res => simp [updateFile_get?_ne _ _ _ _ h]
    | error msg => simp [updateFile_get?_ne _ _ _ _ h]

theorem processFile_length (records : List BatchFileInfo) (i : Nat)
    (o : Except String CompressionResult) :
    (processFile records i o).length = records.length := by
  unfold processFile
  cases hg : records[i]? with
  | none => rfl
  | some r =>
    cases o with
    | ok res => simp [updateFile_length]
    | error msg => simp [updateFile_length]

theorem runBatchAux_records_length
    (outcomes : List (Except String CompressionResult)) :
    ∀ (fuel : Nat) (records : List BatchFileInfo) (i : Nat),
      ((runBatchAux outcomes records i fuel).1).length = records.length := by
  intro fuel
  induction fuel with
  | zero => intro records i; rfl
  | succ fuel ih =>
    intro records i
    simp [runBatchAux, ih, processFile_length]

theorem runBatchAux_get?_lt (outcomes : List (Except String CompressionResult)) :
    ∀ (fuel : Nat) (records : List BatchFileInfo) (i j : Nat), j < i →
      ((runBatchAux outcomes records i fuel).1)[j]? = records[j]? := by
  intro fuel
  induction fuel with
  | zero => intro records i j _; rfl
  | succ fuel ih =>
    intro records i j hj
    have h1 := ih (processFile records i (outcomes.getD i (.error "Compression failed")))
      (i + 1) j (by omega)
    calc ((runBatchAux outcomes records i (fuel + 1)).1)[j]?
        = ((runBatchAux outcomes
            (processFile records i (outcomes.getD i (.error "Compression failed")))
            (i + 1) fuel).1)[j]? := rfl
      _ = (processFile records i
            (outcomes.getD i (.error "Compression failed")))[j]? := h1
      _ = records[j]? := processFile_get?_ne _ _ _ _ (by omega)

theorem runBatchAux_get?_processed
    (outcomes : List (Except String CompressionResult)) :
    ∀ (fuel : Nat) (records : List BatchFileInfo) (i j : Nat),
      i ≤ j → j < i + fuel →
      ((runBatchAux outcomes records i fuel).1)[j]? =
        records[j]?.map
          (applyOutcome (outcomes.getD j (.error "Compression failed"))) := by
  intro fuel
  induction fuel with
  | zero => intro records i j h1 h2; omega
  | succ fuel ih =>
    intro records i j h1 h2
    by_cases hij : j = i
    · subst hij
      calc ((runBatchAux outcomes records j (fuel + 1)).1)[j]?
          = ((runBatchAux outcomes
              (processFile records j (outcomes.getD j (.error "Compression failed")))
              (j + 1) fuel).1)[j]? := rfl
        _ = (processFile records j
              (outcomes.getD j (.error "Compression failed")))[j]? :=
            runBatchAux_get?_lt outcomes fuel _ (j + 1) j (by omega)
        _ = records[j]?.map
              (applyOutcome (outcomes.getD j (.error "Compression failed"))) :=
            processFile_get?_self _ _ _
    · have hlt : i + 1 ≤ j := by omega
      calc ((runBatchAux outcomes records i (fuel + 1)).1)[j]?
          = ((runBatchAux outcomes
              (processFile records i (outcomes.getD i (.error "Compression failed")))
              (i + 1) fuel).1)[j]? := rfl
        _ = ((processFile records i
              (outcomes.getD i (.error "Compression failed")))[j]?).map
              (applyOutcome (outcomes.getD j (.error "Compression failed"))) :=
            ih _ (i + 1) j hlt (by omega)
        _ = records[j]?.map
              (applyOutcome (outcomes.getD j (.error "Compression failed"))) := by
            rw [processFile_get?_ne _ _ _ _ hij]

theorem runBatchAux_trace (outcomes : List (Except String CompressionResult)) :
    ∀ (fuel : Nat) (records : List BatchFileInfo) (i : Nat),
      (runBatchAux outcomes records i fuel).2 = seqTrace i fuel := by
  intro fuel
  induction fuel with
  | zero => intro records i; rfl
  | succ fuel ih =>
    intro records i
    simp [runBatchAux, seqTrace, ih]

theorem seqTrace_start_pos :
    ∀ (fuel i p j : Nat), (seqTrace i fuel)[p]? = some (.start j) →
      i ≤ j ∧ j < i + fuel ∧ p = 2 * (j - i) := by
  intro fuel
  induction fuel with
  | zero =>
    intro i p j h
    cases p with
    | zero => simp [seqTrace] at h
    | succ n => simp [seqTrace] at h
  | succ fuel ih =>
    intro i p j h
    match p with
    | 0 =>
      simp [seqTrace] at h
      omega
    | 1 => simp [seqTrace] at h
    | n + 2 =>
      have h' : (seqTrace (i + 1) fuel)[n]? = some (.start j) := by
        simpa [seqTrace] using h
      obtain ⟨a, b, c⟩ := ih (i + 1) n j h'
      refine ⟨by omega, by omega, by omega⟩

theorem seqTrace_done_pos :
    ∀ (fuel i p j : Nat), (seqTrace i fuel)[p]? = some (.done j) →
      i ≤ j ∧ j < i + fuel ∧ p = 2 * (j - i) + 1 := by
  intro fuel
  induction fuel with
  | zero =>
    intro i p j h
    cases p with
    | zero => simp [seqTrace] at h
    | succ n => simp [seqTrace] at h
  | succ fuel ih =>
    intro i p j h
    match p with
    | 0 => simp [seqTrace] at h
    | 1 =>
      simp [seqTrace] at h
      omega
    | n + 2 =>
      have h' : (seqTrace (i + 1) fuel)[n]? = some (.done j) := by
        simpa [seqTrace] using h
      obtain ⟨a, b, c⟩ := ih (i + 1) n j h'
      refine ⟨by omega, by omega, by omega⟩

/-! ### Helper lemmas: output path allocator -/

theorem string_data_append (a b : String) : (a ++ b).data = a.data ++ b.data := by
  cases a; cases b; rfl

theorem sqshCandidate_data (dir base ext : String) (k : Nat) :
    (sqshCandidate dir base ext k).data =
      (dir.data ++ '/' :: base.data) ++ candMid ext k := by
  cases k with
  | zero =>
    simp [sqshCandidate, pathJoin, candMid, string_data_append,
      show ("/" : String).data = ['/'] from rfl]
  | succ n =>
    simp [sqshCandidate, pathJoin, candMid, string_data_append, natStr,
      show ("/" : String).data = ['/'] from rfl,
      show ("-" : String).data = ['-'] from rfl]

theorem sqshCandidate_injective (dir base ext : String) :
    Function.Injective (sqshCandidate dir base ext) := by
  intro a b h
  have hd : (sqshCandidate dir base ext a).data =
      (sqshCandidate dir base ext b).data := by rw [h]
  rw [sqshCandidate_data, sqshCandidate_data] at hd
  have hmid : candMid ext a = candMid ext b := List.append_cancel_left hd
  have hlen_ne : ∀ m : Nat, (natChars (m + 1)).length ≠ 0 := by
    intro m hm
    exact natChars_ne_nil (m + 1) (List.length_eq_zero.mp hm)
  cases a with
  | zero =>
    cases b with
    | zero => rfl
    | succ m =>
      exfalso
      have hlen := congrArg List.length hmid
      simp [candMid] at hlen
      exact absurd hlen (by have := hlen_ne m; omega)
  | succ n =>
    cases b with
    | zero =>
      exfalso
      have hlen := congrArg List.length hmid
      simp [candMid] at hlen
      exact absurd hlen (by have := hlen_ne n; omega)
    | succ m =>
      simp only [candMid, List.cons.injEq, true_and] at hmid
      have h2 := List.append_cancel_right hmid
      have h3 := natChars_injective h2
      omega

theorem allocLoop_spec (fs : Fs) (dir base ext : String) :
    ∀ (fuel k : Nat),
      ((List.range' k fuel).filter
        (fun m => fs.existsSync (sqshCandidate dir base ext m))).length < fuel →
      ∃ m, k ≤ m ∧
        allocLoop fs dir base ext k fuel = sqshCandidate dir base ext m ∧
        fs.existsSync (sqshCandidate dir base ext m) = false ∧
        ∀ j, k ≤ j → j < m →
          fs.existsSync (sqshCandidate dir base ext j) = true := by
  intro fuel
  induction fuel with
  | zero => intro k h; omega
  | succ fuel ih =>
    intro k h
    by_cases hk : fs.existsSync (sqshCandidate dir base ext k) = true
    · have hcons : List.range' k (fuel + 1) = k :: List.range' (k + 1) fuel := rfl
      rw [hcons, List.filter_cons] at h
      simp only [hk, if_pos, decide_eq_true_eq, List.length_cons] at h
      have hrest : ((List.range' (k + 1) fuel).filter
          (fun m => fs.existsSync (sqshCandidate dir base ext m))).length < fuel := by
        omega
      obtain ⟨m, hm1, hm2, hm3, hm4⟩ := ih (k + 1) hrest
      refine ⟨m, by omega, ?_, hm3, ?_⟩
      · simp only [allocLoop, hk, if_pos]
        exact hm2
      · intro j hj1 hj2
        by_cases hjk : j = k
        · rw [hjk]; exact hk
        · exact hm4 j (by omega) hj2
    · refine ⟨k, Nat.le_refl k, ?_, by simpa using hk, ?_⟩
      · simp [allocLoop, hk]
      · intro j hj1 hj2
        omega

theorem filter_candidates_le (fs : Fs) (dir base ext : String) (k n : Nat) :
    ((List.range' k n).filter
      (fun m => fs.existsSync (sqshCandidate dir base ext m))).length ≤
      fs.paths.length := by
  have hnd : ((List.range' k n).filter
      (fun m => fs.existsSync (sqshCandidate dir base ext m))).Nodup :=
    (List.nodup_range' k n 1 (by omega)).filter _
  have hmapnd : (((List.range' k n).filter
      (fun m => fs.existsSync (sqshCandidate dir base ext m))).map
        (sqshCandidate dir base ext)).Nodup :=
    hnd.map (sqshCandidate_injective dir base ext)
  have hsub : ∀ x ∈ ((List.range' k n).filter
      (fun m => fs.existsSync (sqshCandidate dir base ext m))).map
        (sqshCandidate dir base ext), x ∈ fs.paths := by
    intro x hx
    obtain ⟨m, hm, rfl⟩ := List.mem_map.mp hx
    have hp := List.of_mem_filter hm
    simp only [decide_eq_true_eq] at hp
    exact (Fs.existsSync_iff_mem_paths fs _).mp hp
  calc ((List.range' k n).filter
        (fun m => fs.existsSync (sqshCandidate dir base ext m))).length
      = (((List.range' k n).filter
          (fun m => fs.existsSync (sqshCandidate dir base ext m))).map
            (sqshCandidate dir base ext)).length := (List.length_map _ _).symm
    _ = (((List.range' k n).filter
          (fun m => fs.existsSync (sqshCandidate dir base ext m))).map
            (sqshCandidate dir base ext)).toFinset.card :=
        (List.toFinset_card_of_nodup hmapnd).symm
    _ ≤ fs.paths.toFinset.card :=
        Finset.card_le_card (fun x hx =>
          List.mem_toFinset.mpr (hsub x (List.mem_toFinset.mp hx)))
    _ ≤ fs.paths.length := List.toFinset_card_le _

theorem generateOutputPath_free (fs : Fs) (inputPath : String)
    (advanced : Option AdvancedSettings) :
    fs.existsSync (generateOutputPath fs inputPath advanced) = false ∧
    ∃ m, generateOutputPath fs inputPath advanced =
        sqshCandidate (allocDir inputPath advanced) (allocBase inputPath)
          (allocExt inputPath advanced) m ∧
      ∀ j < m, fs.existsSync (sqshCandidate (allocDir inputPath advanced)
          (allocBase inputPath) (allocExt inputPath advanced) j) = true := by
  have hb := filter_candidates_le fs (allocDir inputPath advanced)
    (allocBase inputPath) (allocExt inputPath advanced) 0 (fs.paths.length + 1)
  obtain ⟨m, _, h2, h3, h4⟩ := allocLoop_spec fs (allocDir inputPath advanced)
    (allocBase inputPath) (allocExt inputPath advanced)
    (fs.paths.length + 1) 0 (by omega)
  unfold generateOutputPath
  rw [h2]
  exact ⟨h3, m, rfl, fun j hj => h4 j (Nat.zero_le j) hj⟩

/-! ### Helper lemmas: result aggregator -/

theorem totalOutput_foldl_eq :
    ∀ (files : List BatchFileInfo) (s : Nat),
      (∀ f ∈ files, recordWF f = true) →
      files.foldl
        (fun sum f =>
          match f.result with
          | some r =>
              if !r.alreadyOptimized then sum + r.outputSize
              else sum + f.info.size
          | none => sum + f.info.size) s =
      files.foldl
        (fun sum f =>
          if f.status = .completed then
            sum + ((f.result.map (fun r => r.outputSize)).getD f.info.size)
          else sum + f.info.size) s := by
  intro files
  induction files with
  | nil => intro s _; rfl
  | cons f rest ih =>
    intro s h
    have hf := h f (List.mem_cons_self f rest)
    have hrest : ∀ g ∈ rest, recordWF g = true :=
      fun g hg => h g (List.mem_cons_of_mem f hg)
    simp only [List.foldl_cons]
    have hstep : (match f.result with
        | some r =>
            if !r.alreadyOptimized then s + r.outputSize
            else s + f.info.size
        | none => s + f.info.size) =
        (if f.status = .completed then
          s + ((f.result.map (fun r => r.outputSize)).getD f.info.size)
        else s + f.info.size) := by
      cases hr : f.result with
      | none =>
        simp only [recordWF, hr] at hf
        have hst : ¬ (f.status = .completed) := by
          simpa using hf
        simp [hr, hst]
      | some r =>
        simp only [recordWF, hr, Bool.and_eq_true, beq_iff_eq,
          Bool.or_eq_true, Bool.not_eq_true'] at hf
        obtain ⟨⟨h1, h2⟩, h3⟩ := hf
        by_cases ho : r.alreadyOptimized = true
        · have hout : r.outputSize = r.inputSize := by
            rcases h3 with h3 | h3
            · rw [ho] at h3; cases h3
            · exact h3
          simp [hr, h1, ho, hout, h2]
        · simp only [Bool.not_eq_true] at ho
          simp [hr, h1, ho]
    rw [hstep, ih _ hrest]

theorem seqTrace_batchDone_pos :
    ∀ (fuel i p : Nat), (seqTrace i fuel)[p]? = some .batchDone →
      p = 2 * fuel := by
  intro fuel
  induction fuel with
  | zero =>
    intro i p h
    cases p with
    | zero => rfl
    | succ n => simp [seqTrace] at h
  | succ fuel ih =>
    intro i p h
    match p with
    | 0 => simp [seqTrace] at h
    | 1 => simp [seqTrace] at h
    | n + 2 =>
      have h' : (seqTrace (i + 1) fuel)[n]? = some .batchDone := by
        simpa [seqTrace] using h
      have := ih (i + 1) n h'
      omega

/-! ### Claim theorems -/

/-- C1: for every compress invocation reaching result computation, if
the written output's size is at least the input's size, the output
file is deleted and the result is reshaped to the already-optimized
form (`outputPath = inputPath`, `outputSize = inputSize`,
`savedBytes = 0`); otherwise the result has the normal shape; and
every non-optimized result satisfies `outputSize < inputSize`
strictly. -/
theorem claim_C1_size_safety (fs : Fs) (fi : FileInfo) (outputPath : String)
    (duration : ℚ) :
    (fi.size ≤ fs.fileSize outputPath →
      (calculateResult fs fi outputPath duration).1.alreadyOptimized = true ∧
      (calculateResult fs fi outputPath duration).1.outputPath =
        (calculateResult fs fi outputPath duration).1.inputPath ∧
      (calculateResult fs fi outputPath duration).1.outputSize =
        (calculateResult fs fi outputPath duration).1.inputSize ∧
      (calculateResult fs fi outputPath duration).1.savedBytes = 0 ∧
      (calculateResult fs fi outputPath duration).2.isFile outputPath = false) ∧
    (fs.fileSize outputPath < fi.size →
      (calculateResult fs fi outputPath duration).1.alreadyOptimized = false ∧
      (calculateResult fs fi outputPath duration).1.outputPath = outputPath ∧
      (calculateResult fs fi outputPath duration).1.outputSize =
        fs.fileSize outputPath ∧
      (calculateResult fs fi outputPath duration).2 = fs) ∧
    ((calculateResult fs fi outputPath duration).1.alreadyOptimized = false →
      (calculateResult fs fi outputPath duration).1.outputSize <
        (calculateResult fs fi outputPath duration).1.inputSize) := by
  refine ⟨?_, ?_, ?_⟩
  · intro h
    rw [calculateResult_ge fs fi outputPath duration h]
    exact ⟨rfl, rfl, rfl, rfl, Fs.isFile_removeFile_self fs outputPath⟩
  · intro h
    rw [calculateResult_lt fs fi outputPath duration h]
    exact ⟨rfl, rfl, rfl, rfl⟩
  · intro h
    by_cases hc : fi.size ≤ fs.fileSize outputPath
    · rw [calculateResult_ge fs fi outputPath duration hc] at h
      cases h
    · have hlt := Nat.not_le.mp hc
      rw [calculateResult_lt fs fi outputPath duration hlt]
      simpa using hlt

theorem claim_C1_witness :
    (calculateResult (⟨[("/in/a.mp4", 100), ("/in/a-sqshed.mp4", 120)], ["/in"]⟩ : Fs)
        (⟨"/in/a.mp4", "a.mp4", 100, .video, "mp4"⟩ : FileInfo)
        "/in/a-sqshed.mp4" 1).1.alreadyOptimized = true :=
  ((claim_C1_size_safety _ _ _ _).1 (by decide)).1

/-- C4 (amended): the original input file is deleted only when
`removeInputFile` is set and the finalized result is not
already-optimized; however `inputFileRemoved` is set to true exactly
when deletion was requested on a non-optimized result, regardless of
whether the `deleteFile` call actually removed the file (its return
value is ignored). -/
theorem claim_C4_deletion (fs : Fs) (fi : FileInfo)
    (settings : CompressionSettings) (outputPath : String) (duration : ℚ)
    (hne : fi.path ≠ outputPath) :
    ((settings.removeInputFile &&
        !(calculateResult fs fi outputPath duration).1.alreadyOptimized) = false →
      (finalizeCompression fs fi settings outputPath duration).2.isFile fi.path =
        fs.isFile fi.path) ∧
    (finalizeCompression fs fi settings outputPath duration).1.inputFileRemoved =
      (settings.removeInputFile &&
        !(calculateResult fs fi outputPath duration).1.alreadyOptimized) := by
  constructor
  · intro h
    rw [finalize_fs_no_delete fs fi settings outputPath duration h]
    exact calculateResult_preserves_other_file fs fi outputPath duration fi.path hne
  · exact finalize_inputFileRemoved fs fi settings outputPath duration

theorem claim_C4_witness :
    (finalizeCompression
        (⟨[("/in/a.mp4", 100), ("/in/a-sqshed.mp4", 60)], ["/in"]⟩ : Fs)
        (⟨"/in/a.mp4", "a.mp4", 100, .video, "mp4"⟩ : FileInfo)
        (⟨false, none⟩ : CompressionSettings) "/in/a-sqshed.mp4" 1).2.isFile
        "/in/a.mp4" =
      (⟨[("/in/a.mp4", 100), ("/in/a-sqshed.mp4", 60)], ["/in"]⟩ : Fs).isFile
        "/in/a.mp4" :=
  (claim_C4_deletion _ _ _ _ _ (by decide)).1 (by decide)

/-- C4 counterexample: with `removeInputFile` set and a smaller output
written, but the input file already gone from the filesystem when the
encode finishes, `deleteFile` reports that nothing was deleted
(`false`), yet the result still carries `inputFileRemoved = true` —
so `inputFileRemoved` is not "true only if deletion was actually
performed". -/
theorem claim_C4_counterexample :
    (deleteFile (calculateResult
          (⟨[("/in/a-sqshed.mp4", 60)], ["/in"]⟩ : Fs)
          (⟨"/in/a.mp4", "a.mp4", 100, .video, "mp4"⟩ : FileInfo)
          "/in/a-sqshed.mp4" 1).2 "/in/a.mp4").1 = false ∧
    (finalizeCompression (⟨[("/in/a-sqshed.mp4", 60)], ["/in"]⟩ : Fs)
        (⟨"/in/a.mp4", "a.mp4", 100, .video, "mp4"⟩ : FileInfo)
        (⟨true, none⟩ : CompressionSettings)
        "/in/a-sqshed.mp4" 1).1.inputFileRemoved = true := by
  decide

/-- C5: for every input path and every filesystem state, the output
path allocator returns a path that does not exist on disk; the
returned path is one of the candidates `<basename>-sqshed<ext>`,
`<basename>-sqshed-1<ext>`, `<basename>-sqshed-2<ext>`, ... and every
earlier candidate in that sequence does exist (suffixes are appended
until a free name is found). -/
theorem claim_C5_allocator (fs : Fs) (inputPath : String)
    (advanced : Option AdvancedSettings) :
    fs.existsSync (generateOutputPath fs inputPath advanced) = false ∧
    ∃ m, generateOutputPath fs inputPath advanced =
        sqshCandidate (allocDir inputPath advanced) (allocBase inputPath)
          (allocExt inputPath advanced) m ∧
      ∀ j < m, fs.existsSync (sqshCandidate (allocDir inputPath advanced)
          (allocBase inputPath) (allocExt inputPath advanced) j) = true :=
  generateOutputPath_free fs inputPath advanced

theorem claim_C5_witness :
    Fs.existsSync (⟨[("/in/a.mp4", 100), ("/in/a-sqshed.mp4", 40)], ["/in"]⟩ : Fs)
      (generateOutputPath
        (⟨[("/in/a.mp4", 100), ("/in/a-sqshed.mp4", 40)], ["/in"]⟩ : Fs)
        "/in/a.mp4" none) = false :=
  (claim_C5_allocator _ _ _).1

/-- C8 (amended): the invalid-destination check lives at the
settings-entry boundary, not in the allocator: the advanced-settings
folder step rejects a non-empty input exactly when it is not an
existing directory (error `Invalid directory path`, the override is
not stored), while `generateOutputPath` itself never fails — it
always returns a candidate path, whatever the provided folder. -/
theorem claim_C8_destination (fs : Fs) (input : String) :
    (handleFolderEnter fs input = .error "Invalid directory path" ↔
      (¬ cleanPath input = "" ∧ isValidDirectory fs (cleanPath input) = false)) ∧
    (∀ (inputPath : String) (advanced : Option AdvancedSettings),
      ∃ m, generateOutputPath fs inputPath advanced =
        sqshCandidate (allocDir inputPath advanced) (allocBase inputPath)
          (allocExt inputPath advanced) m) := by
  constructor
  · unfold handleFolderEnter
    by_cases h1 : cleanPath input = ""
    · simp [h1]
    · by_cases h2 : isValidDirectory fs (cleanPath input) = true
      · simp [h1, h2]
      · simp only [Bool.not_eq_true] at h2
        simp [h1, h2]
  · intro inputPath advanced
    obtain ⟨m, hm, _⟩ := (generateOutputPath_free fs inputPath advanced).2
    exact ⟨m, hm⟩

theorem claim_C8_witness :
    handleFolderEnter (⟨[], ["/out"]⟩ : Fs) " /bad " =
      .error "Invalid directory path" :=
  (claim_C8_destination (⟨[], ["/out"]⟩ : Fs) " /bad ").1.mpr (by decide)

/-- C8 counterexample: with an explicit `outputFolder` that is not an
existing directory, `generateOutputPath` does not fail with any
error — it computes an ordinary output path inside the non-existent
folder. -/
theorem claim_C8_counterexample :
    isValidDirectory (⟨[("/in/a.mp4", 100)], ["/in"]⟩ : Fs) "/nope" = false ∧
    generateOutputPath (⟨[("/in/a.mp4", 100)], ["/in"]⟩ : Fs) "/in/a.mp4"
        (some (⟨some "/nope", none, none⟩ : AdvancedSettings)) =
      "/nope/a-sqshed.mp4" := by
  decide

/-- C9: the classifier returns `none` exactly when the (cleaned) path
does not exist, is not a regular file, or its lowercased extension is
outside the supported sets; a returned descriptor's category is
determined purely by the lowercased extension (via the `extCategory`
function); and no extension appears in both supported sets, so the
category is unambiguous. -/
theorem claim_C9_classifier :
    (∀ (fs : Fs) (p : String), getFileInfo fs p = none ↔
      (fs.existsSync (cleanPath p) = false ∨ fs.isFile (cleanPath p) = false ∨
        extCategory (lowerStr (extname (cleanPath p))) = none)) ∧
    (∀ (fs : Fs) (p : String) (fi : FileInfo), getFileInfo fs p = some fi →
      extCategory (lowerStr (extname (cleanPath p))) = some fi.type) ∧
    (∀ e ∈ SUPPORTED_VIDEO_FORMATS, ∀ e2 ∈ SUPPORTED_IMAGE_FORMATS, e ≠ e2) :=
  ⟨getFileInfo_eq_none_iff, getFileInfo_type, supported_formats_disjoint⟩

theorem claim_C9_witness :
    extCategory (lowerStr (extname (cleanPath "/in/a.JPG"))) =
      some FileType.image :=
  claim_C9_classifier.2.1 (⟨[("/in/a.JPG", 7)], ["/in"]⟩ : Fs) "/in/a.JPG"
    (⟨"/in/a.JPG", "a.JPG", 7, .image, "jpg"⟩ : FileInfo) (by decide)

/-- C10: every descriptor the classifier produces is video or image,
never audio, so the audio branch of `CompressionService.compress` is
unreachable from classifier output; and every path with an audio
extension (mp3, wav, flac, ogg, aac, m4a) is rejected with `none`. -/
theorem claim_C10_no_audio :
    (∀ (fs : Fs) (p : String) (fi : FileInfo), getFileInfo fs p = some fi →
      (fi.type = .video ∨ fi.type = .image) ∧
        compressDispatch fi.type ≠ .audio) ∧
    (∀ (fs : Fs) (p : String),
      lowerStr (extname (cleanPath p)) ∈
        ([".mp3", ".wav", ".flac", ".ogg", ".aac", ".m4a"] : List String) →
      getFileInfo fs p = none) := by
  constructor
  · intro fs p fi h
    have ht := getFileInfo_type fs p fi h
    have hna := extCategory_ne_audio _ _ ht
    have hvi : fi.type = .video ∨ fi.type = .image := by
      cases htype : fi.type
      · exact Or.inl rfl
      · exact Or.inr rfl
      · rw [htype] at hna; exact absurd rfl hna
    refine ⟨hvi, ?_⟩
    rcases hvi with hv | hi
    · rw [hv]; decide
    · rw [hi]; decide
  · intro fs p hmem
    exact (getFileInfo_eq_none_iff fs p).mpr
      (Or.inr (Or.inr (audio_ext_unsupported _ hmem)))

theorem claim_C10_witness :
    getFileInfo (⟨[("/in/x.mp3", 9)], ["/in"]⟩ : Fs) "/in/x.mp3" = none :=
  claim_C10_no_audio.2 (⟨[("/in/x.mp3", 9)], ["/in"]⟩ : Fs) "/in/x.mp3" (by decide)

/-- C2: when the encoder rejects for a file in the batch, that file's
record is marked `error` with the message populated and the result
absent, the exception does not escape (`processFile` is total and the
loop continues), and every file in the batch still reaches a terminal
state — a single failure never aborts the batch. -/
theorem claim_C2_error_isolation (files : List FileInfo)
    (outcomes : List (Except String CompressionResult)) (i : Nat) (msg : String)
    (hi : i < files.length)
    (ho : outcomes.getD i (.error "Compression failed") = .error msg) :
    (∃ rec, ((runBatch (toBatchFiles files) outcomes).1)[i]? = some rec ∧
      rec.status = .error ∧ rec.error = some msg ∧ rec.result = none) ∧
    ∀ j, j < files.length →
      ∃ recj, ((runBatch (toBatchFiles files) outcomes).1)[j]? = some recj ∧
        (recj.status = .completed ∨ recj.status = .error) := by
  have hlen : (toBatchFiles files).length = files.length := by
    simp [toBatchFiles]
  have hproc : ∀ j, j < files.length →
      ((runBatch (toBatchFiles files) outcomes).1)[j]? =
        ((toBatchFiles files)[j]?).map
          (applyOutcome (outcomes.getD j (.error "Compression failed"))) := by
    intro j hj
    unfold runBatch
    exact runBatchAux_get?_processed outcomes (toBatchFiles files).length
      (toBatchFiles files) 0 j (Nat.zero_le j) (by omega)
  constructor
  · have hinit : (toBatchFiles files)[i]? =
        some { info := files[i], status := .pending, progress := 0,
               result := none, error := none } := by
      simp [toBatchFiles, List.getElem?_map _ files i,
        List.getElem?_eq_getElem hi]
    rw [hproc i hi, hinit, ho]
    exact ⟨_, rfl, rfl, rfl, rfl⟩
  · intro j hj
    rw [hproc j hj]
    have hinitj : (toBatchFiles files)[j]? =
        some { info := files[j], status := .pending, progress := 0,
               result := none, error := none } := by
      simp [toBatchFiles, List.getElem?_map _ files j,
        List.getElem?_eq_getElem hj]
    rw [hinitj]
    cases outcomes.getD j (.error "Compression failed") with
    | ok res => exact ⟨_, rfl, Or.inl rfl⟩
    | error m => exact ⟨_, rfl, Or.inr rfl⟩

theorem claim_C2_witness :
    ∃ rec, ((runBatch (toBatchFiles
        [(⟨"/a.mp4", "a.mp4", 100, .video, "mp4"⟩ : FileInfo),
         (⟨"/b.mp4", "b.mp4", 100, .video, "mp4"⟩ : FileInfo)])
        [.ok (⟨"/a.mp4", "/a-sqshed.mp4", 100, 50, 50, 50, 1, false, false⟩ :
          CompressionResult), .error "boom"]).1)[1]? = some rec ∧
      rec.status = .error ∧ rec.error = some "boom" ∧ rec.result = none :=
  (claim_C2_error_isolation _ _ 1 "boom" (by decide) (by rfl)).1

/-- C3: the batch loop is strictly sequential in list order — in the
trace of one run, file `i + 1` enters `compressing` only after file
`i` has reached its terminal state, and the batch-done transition
comes only after every file's terminal event, with every record
ending `completed` or `error`. -/
theorem claim_C3_sequential (records : List BatchFileInfo)
    (outcomes : List (Except String CompressionResult)) :
    (∀ (i p q : Nat),
      ((runBatch records outcomes).2)[p]? = some (BatchEvent.start (i + 1)) →
      ((runBatch records outcomes).2)[q]? = some (BatchEvent.done i) → q < p) ∧
    (∀ (i p q : Nat),
      ((runBatch records outcomes).2)[p]? = some BatchEvent.batchDone →
      ((runBatch records outcomes).2)[q]? = some (BatchEvent.done i) → q < p) ∧
    (∀ j, j < records.length →
      ∃ recj, ((runBatch records outcomes).1)[j]? = some recj ∧
        (recj.status = .completed ∨ recj.status = .error)) := by
  have htr : (runBatch records outcomes).2 = seqTrace 0 records.length := by
    unfold runBatch
    exact runBatchAux_trace outcomes records.length records 0
  refine ⟨?_, ?_, ?_⟩
  · intro i p q hp hq
    rw [htr] at hp hq
    obtain ⟨_, _, hp3⟩ := seqTrace_start_pos records.length 0 p (i + 1) hp
    obtain ⟨_, _, hq3⟩ := seqTrace_done_pos records.length 0 q i hq
    omega
  · intro i p q hp hq
    rw [htr] at hp hq
    have hp3 := seqTrace_batchDone_pos records.length 0 p hp
    obtain ⟨_, hq2, hq3⟩ := seqTrace_done_pos records.length 0 q i hq
    omega
  · intro j hj
    have hproc := runBatchAux_get?_processed outcomes records.length records 0 j
      (Nat.zero_le j) (by omega)
    unfold runBatch
    rw [hproc, List.getElem?_eq_getElem hj]
    cases outcomes.getD j (.error "Compression failed") with
    | ok res => exact ⟨_, rfl, Or.inl rfl⟩
    | error m => exact ⟨_, rfl, Or.inr rfl⟩

theorem claim_C3_witness :
    ∃ recj, ((runBatch (toBatchFiles
        [(⟨"/a.mp4", "a.mp4", 100, .video, "mp4"⟩ : FileInfo)])
        [.ok (⟨"/a.mp4", "/a-sqshed.mp4", 100, 50, 50, 50, 1, false, false⟩ :
          CompressionResult)]).1)[0]? = some recj ∧
      (recj.status = .completed ∨ recj.status = .error) :=
  (claim_C3_sequential _ _).2.2 0 (by decide)

/-- C6: for well-formed record lists the summary's total output bytes
equal the specification's sum (`result.outputSize` for completed
records, the descriptor size otherwise, errored and unprocessed
records counted as unchanged); `totalSaved` is exactly
`totalInputSize - totalOutputSize`; and the saved percentage is the
ratio times 100 with the zero-input case guarded to 0. -/
theorem claim_C6_aggregator (files : List BatchFileInfo)
    (h : ∀ f ∈ files, recordWF f = true) :
    totalOutputSize files = specTotalOutputBytes files ∧
    totalSaved files =
      (totalInputSize files : Int) - (totalOutputSize files : Int) ∧
    (totalInputSize files = 0 → savedPercentage files = 0) ∧
    (0 < totalInputSize files →
      savedPercentage files =
        (totalSaved files : ℚ) / (totalInputSize files : ℚ) * 100) := by
  refine ⟨?_, rfl, ?_, ?_⟩
  · unfold totalOutputSize specTotalOutputBytes
    exact totalOutput_foldl_eq files 0 h
  · intro h0
    simp [savedPercentage, h0]
  · intro hpos
    simp [savedPercentage, hpos]

theorem claim_C6_witness :
    totalOutputSize
      [(⟨⟨"/a.mp4", "a.mp4", 100, .video, "mp4"⟩, .completed, 100,
          some ⟨"/a.mp4", "/a-sqshed.mp4", 100, 60, 40, 40, 1, false, false⟩,
          none⟩ : BatchFileInfo),
       (⟨⟨"/b.mp4", "b.mp4", 200, .video, "mp4"⟩, .completed, 100,
          some ⟨"/b.mp4", "/b.mp4", 200, 200, 0, 0, 1, false, true⟩,
          none⟩ : BatchFileInfo),
       (⟨⟨"/c.mp4", "c.mp4", 300, .video, "mp4"⟩, .error, 0, none,
          some "boom"⟩ : BatchFileInfo),
       (⟨⟨"/d.mp4", "d.mp4", 400, .video, "mp4"⟩, .pending, 0, none,
          none⟩ : BatchFileInfo)] =
    specTotalOutputBytes
      [(⟨⟨"/a.mp4", "a.mp4", 100, .video, "mp4"⟩, .completed, 100,
          some ⟨"/a.mp4", "/a-sqshed.mp4", 100, 60, 40, 40, 1, false, false⟩,
          none⟩ : BatchFileInfo),
       (⟨⟨"/b.mp4", "b.mp4", 200, .video, "mp4"⟩, .completed, 100,
          some ⟨"/b.mp4", "/b.mp4", 200, 200, 0, 0, 1, false, true⟩,
          none⟩ : BatchFileInfo),
       (⟨⟨"/c.mp4", "c.mp4", 300, .video, "mp4"⟩, .error, 0, none,
          some "boom"⟩ : BatchFileInfo),
       (⟨⟨"/d.mp4", "d.mp4", 400, .video, "mp4"⟩, .pending, 0, none,
          none⟩ : BatchFileInfo)] :=
  (claim_C6_aggregator _ (by decide)).1

/-- C7: a batch containing files of more than one media category is
rejected whole by the drop-zone submission with a validation error;
no record list is ever handed to the orchestrator, so no file can
enter `compressing`. -/
theorem claim_C7_mixed_batch (files : List FileInfo) (f g : FileInfo)
    (hf : f ∈ files) (hg : g ∈ files) (hne : f.type ≠ g.type) :
    ∃ e, submitDroppedFiles files = .error e ∧
      ∀ recs, ¬ (submitDroppedFiles files = .ok recs) := by
  cases files with
  | nil => cases hf
  | cons f0 rest =>
    have hall : ¬ (rest.all (fun x => x.type == f0.type) = true) := by
      intro hall
      have htype : ∀ x ∈ f0 :: rest, x.type = f0.type := by
        intro x hx
        rcases List.mem_cons.mp hx with hx | hx
        · rw [hx]
        · exact beq_iff_eq.mp (List.all_eq_true.mp hall x hx)
      exact hne ((htype f hf).trans (htype g hg).symm)
    have hallf : rest.all (fun x => x.type == f0.type) = false := by
      cases hb : rest.all (fun x => x.type == f0.type)
      · rfl
      · exact absurd hb hall
    have heq : submitDroppedFiles (f0 :: rest) =
        .error "Cannot mix file types in one batch" := by
      simp [submitDroppedFiles, validateBatchFiles, hallf]
    refine ⟨_, heq, ?_⟩
    intro recs hok
    rw [heq] at hok
    cases hok

theorem claim_C7_witness :
    ∃ e, submitDroppedFiles
        [(⟨"/a.mp4", "a.mp4", 100, .video, "mp4"⟩ : FileInfo),
         (⟨"/b.jpg", "b.jpg", 50, .image, "jpg"⟩ : FileInfo)] = .error e ∧
      ∀ recs, ¬ (submitDroppedFiles
        [(⟨"/a.mp4", "a.mp4", 100, .video, "mp4"⟩ : FileInfo),
         (⟨"/b.jpg", "b.jpg", 50, .image, "jpg"⟩ : FileInfo)] = .ok recs) :=
  claim_C7_mixed_batch _
    (⟨"/a.mp4", "a.mp4", 100, .video, "mp4"⟩ : FileInfo)
    (⟨"/b.jpg", "b.jpg", 50, .image, "jpg"⟩ : FileInfo)
    (by decide) (by decide) (by decide)

end Sqsh
